import Mathlib

/-!
Shallow embedding, in Lean 4, of the status-reconciliation and file/column
resolution core of the vendor-qualification backend (`back-end/app.py` and
`back-end/models.py`).  Python strings are modelled as `String` (lists of
characters), Python floats as `ℚ` together with explicit `NaN`/`inf`
markers, and Python `None` as an explicit constructor.  Functions keep the
source's names (`_normalizar_texto`, `_to_float`, `_determinar_status_final`,
`_calcular_media_iqf_controle`, `_colunas_por_candidatos`,
`_carregar_documento_de_fontes`, ...) and mirror their control flow
branch by branch.  Unicode-dependent primitives (`unicodedata.normalize`,
`str.upper`, `str.isalnum`, combining-mark classification) are modelled over
the character repertoire this development exercises: the decomposition table
lists the accented characters that occur in the repository's data and
examples, every character outside the table being decomposition-fixed, and
case mapping / alphanumeric classification are ASCII; this is noted at each
definition.
-/

namespace Portal

/-- A Python value as it appears in spreadsheet cells and in the arguments of
the numeric/normalisation helpers: `vnone` is Python `None`, `vstr` a string,
`vnum` a finite float carried together with its Python `str()` rendering,
`vnan` a floating-point NaN and `vinf` an infinity. -/
inductive Valor where
  | vnone : Valor
  | vstr (s : String) : Valor
  | vnum (q : ℚ) (r : String) : Valor
  | vnan : Valor
  | vinf (neg : Bool) : Valor
deriving DecidableEq

/-- Python `str(value)`: strings render as themselves, `None` as `"None"`,
NaN as `"nan"`, infinities as `"inf"`/`"-inf"`, and a finite float as the
rendering it carries. -/
def strValor : Valor → String
  | .vnone => "None"
  | .vstr s => s
  | .vnum _ r => r
  | .vnan => "nan"
  | .vinf neg => if neg then "-inf" else "inf"

/-- `pd.isna`: true exactly for `None` and NaN among our values. -/
def ehNA : Valor → Bool
  | .vnone => true
  | .vnan => true
  | _ => false

/-- The whitespace characters of Python's default `str.split`/`str.strip`. -/
def ehEspaco (c : Char) : Bool :=
  c = ' ' || c = '\t' || c = '\n' || c = '\r' || c = Char.ofNat 11 || c = Char.ofNat 12

/-- ASCII decimal digit. -/
def ehDigito (c : Char) : Bool := '0' ≤ c && c ≤ '9'

/-- `str.isalnum`, modelled over ASCII letters and digits. -/
def ehAlnum (c : Char) : Bool :=
  ('0' ≤ c && c ≤ '9') || ('A' ≤ c && c ≤ 'Z') || ('a' ≤ c && c ≤ 'z')

/-- `unicodedata.combining(ch) != 0`, modelled as membership in the
combining-diacritical-marks block U+0300–U+036F (the only combining marks the
decomposition table below produces). -/
def ehCombinante (c : Char) : Bool := 0x300 ≤ c.toNat && c.toNat ≤ 0x36F

/-- The ASCII lower→upper case table of the `str.upper` model (all
characters the pipeline feeds to it after decomposition are ASCII letters,
spaces or pass-through characters). -/
def tabelaUpper : List (Char × Char) :=
  [
   ('a', 'A'), ('b', 'B'), ('c', 'C'), ('d', 'D'), ('e', 'E'), ('f', 'F'),
   ('g', 'G'), ('h', 'H'), ('i', 'I'), ('j', 'J'), ('k', 'K'), ('l', 'L'),
   ('m', 'M'), ('n', 'N'), ('o', 'O'), ('p', 'P'), ('q', 'Q'), ('r', 'R'),
   ('s', 'S'), ('t', 'T'), ('u', 'U'), ('v', 'V'), ('w', 'W'), ('x', 'X'),
   ('y', 'Y'), ('z', 'Z')]

/-- `str.upper` on one character, via the table. -/
def upperChar (c : Char) : Char := (tabelaUpper.lookup c).getD c

/-- `str.lower`, modelled on ASCII letters. -/
def lowerChar (c : Char) : Char :=
  if 'A' ≤ c ∧ c ≤ 'Z' then Char.ofNat (c.toNat + 32) else c

/-- `unicodedata.normalize('NFKD', ·)` on a single character.  The table
lists the accented characters exercised by this development; every other
character is NFKD-fixed in this model. -/
def nfkdChar (c : Char) : List Char :=
  if c = 'ã' then ['a', Char.ofNat 0x303]
  else if c = 'Ã' then ['A', Char.ofNat 0x303]
  else if c = 'á' then ['a', Char.ofNat 0x301]
  else if c = 'Á' then ['A', Char.ofNat 0x301]
  else if c = 'é' then ['e', Char.ofNat 0x301]
  else if c = 'É' then ['E', Char.ofNat 0x301]
  else if c = 'ç' then ['c', Char.ofNat 0x327]
  else if c = 'Ç' then ['C', Char.ofNat 0x327]
  else [c]

/-- `unicodedata.normalize('NFD', ·)` on a character: for the tabulated
repertoire NFD and NFKD coincide. -/
def nfdChar (c : Char) : List Char := nfkdChar c

/-- NFKD of a whole string. -/
def nfkdStr (l : List Char) : List Char := l.flatMap nfkdChar

/-- Drop combining marks (the generator-expression filter of
`_normalizar_texto`). -/
def semCombinantes (l : List Char) : List Char := l.filter (fun c => !ehCombinante c)

/-- `str.split()` (split on whitespace runs, dropping empty pieces):
accumulator-based worker. -/
def palavrasAux : List Char → List Char → List (List Char)
  | [], acc => if acc = [] then [] else [acc.reverse]
  | c :: resto, acc =>
    if ehEspaco c then
      (if acc = [] then palavrasAux resto [] else acc.reverse :: palavrasAux resto [])
    else palavrasAux resto (c :: acc)

/-- `str.split()` with no argument. -/
def palavras (l : List Char) : List (List Char) := palavrasAux l []

/-- `' '.join(ws)`. -/
def juntarEspacos : List (List Char) → List Char
  | [] => []
  | [w] => w
  | w :: ws => w ++ ' ' :: juntarEspacos ws

/-- `' '.join(texto.split())`. -/
def colapsar (l : List Char) : List Char := juntarEspacos (palavras l)

/-- `str.strip()` with no argument. -/
def strip (l : List Char) : List Char :=
  ((l.dropWhile ehEspaco).reverse.dropWhile ehEspaco).reverse

/-- `str.upper` on a string. -/
def upperStr (l : List Char) : List Char := l.map upperChar

/-- `str.lower` on a string. -/
def lowerStr (l : List Char) : List Char := l.map lowerChar

/-- `s.strip().upper()` on a Python string, used on approval flags and
decision statuses. -/
def stripUpper (s : String) : String := ⟨upperStr (strip s.data)⟩

/-- The character-level core of `_normalizar_texto` (app.py:1212–1240): NFKD
decomposition, removal of combining marks, whitespace collapse, then
`.upper().strip()`. -/
def normTexto (l : List Char) : List Char :=
  strip (upperStr (colapsar (semCombinantes (nfkdStr l))))

/-- `_normalizar_texto` (app.py:1212–1240).  `None` and NaN-like inputs map
to the empty string; any other non-string value is first rendered with
`str`. -/
def _normalizar_texto (valor : Valor) : String :=
  match valor with
  | .vnone => ""
  | .vstr s => ⟨normTexto s.data⟩
  | .vnan => ""
  | .vnum q r => ⟨normTexto (strValor (.vnum q r)).data⟩
  | .vinf neg => ⟨normTexto (strValor (.vinf neg)).data⟩

/-- `_normalizar_chave` (app.py:1243–1257): `_normalizar_texto` then keep
only alphanumeric characters. -/
def _normalizar_chave (valor : Valor) : String :=
  ⟨(_normalizar_texto valor).data.filter ehAlnum⟩

/-- Rightmost index of `c` in `l`, or `-1` (Python `str.rfind`). -/
def rfind (l : List Char) (c : Char) : ℤ :=
  (l.foldl (fun (st : ℤ × ℤ) d => (st.1 + 1, if d = c then st.1 else st.2)) (0, -1)).2

/-- Numeric value of a digit string. -/
def valorDigitos (l : List Char) : ℕ :=
  l.foldl (fun a c => 10 * a + (c.toNat - 48)) 0

/-- Recogniser part of Python `float(s)` for the sublanguage of digits, an
optional sign and an optional single decimal point that can reach it here
(exponent, `inf`/`nan` words and digit-grouping underscores never survive the
callers' preprocessing and are not modelled): returns the sign and the digit
groups before and after the point, or `None` on a malformed literal. -/
def pyFloatParse (l0 : List Char) : Option (Bool × List Char × List Char) :=
  let l := strip l0
  let corpo := match l with
    | '-' :: t => t
    | '+' :: t => t
    | t => t
  let neg : Bool := match l with
    | '-' :: _ => true
    | _ => false
  if !corpo.all (fun c => ehDigito c || c = '.') then Option.none
  else
    match corpo.splitOn '.' with
    | [p] => if p = [] then Option.none else some (neg, p, [])
    | [p1, p2] => if p1 = [] ∧ p2 = [] then Option.none else some (neg, p1, p2)
    | _ => Option.none

/-- The signed decimal value `±(digits of p1p2) / 10^|p2|`, built with
`Rat.divInt` (which the kernel evaluates) instead of `ℚ` division;
`ratDeDigitos_eq_div` below shows this is the ordinary quotient. -/
def ratDeDigitos (neg : Bool) (p1 p2 : List Char) : ℚ :=
  let n : ℤ := (valorDigitos (p1 ++ p2) : ℤ)
  Rat.divInt (if neg then -n else n) ((10 ^ p2.length : ℕ) : ℤ)

/-- Python `float(s)` on a string (exact-rational model: the
overflow-to-infinity of huge literals and binary rounding are not
modelled). -/
def pyFloat? (l : List Char) : Option ℚ :=
  (pyFloatParse l).map (fun t => ratDeDigitos t.1 t.2.1 t.2.2)

/-- `_to_float` (app.py:1890–1929): safe conversion to a finite float.
Strings are stripped, reduced to digits/comma/dot/minus, the rightmost of
comma and dot is taken as the decimal separator (all occurrences of the other
removed; with several dots and no comma, all but the last dot are dropped as
thousands separators), then parsed; `None` is returned on any failure and on
non-finite values. -/
def _to_float (value : Valor) : Option ℚ :=
  if value = .vnone ∨ value = .vstr "" ∨ value = .vstr "nan" then Option.none
  else
    match value with
    | .vstr s =>
      let texto := strip s.data
      if texto = [] then Option.none
      else
        let apenas_numeros := texto.filter (fun c => ehDigito c || c = ',' || c = '.' || c = '-')
        if apenas_numeros = [] then Option.none
        else
          let last_comma := rfind apenas_numeros ','
          let last_dot := rfind apenas_numeros '.'
          let normalizado :=
            if last_comma > -1 ∧ last_dot > -1 then
              if last_comma > last_dot then
                (apenas_numeros.filter (fun c => c ≠ '.')).map
                  (fun c => if c = ',' then '.' else c)
              else apenas_numeros.filter (fun c => c ≠ ',')
            else if last_comma > -1 then
              (apenas_numeros.filter (fun c => c ≠ '.')).map
                (fun c => if c = ',' then '.' else c)
            else if last_dot > -1 then
              let partes := apenas_numeros.splitOn '.'
              if partes.length > 2 then
                partes.dropLast.flatten ++ '.' :: partes.getLastD []
              else apenas_numeros
            else apenas_numeros
          pyFloat? normalizado
    | .vnum q _ => some q
    | _ => Option.none

/-- `Rat.divInt`-based addition of two rationals (kernel-evaluable);
`ratSoma_eq_add` shows it is ordinary `+`. -/
def ratSoma (a b : ℚ) : ℚ :=
  Rat.divInt (a.num * b.den + b.num * a.den) ((a.den * b.den : ℕ) : ℤ)

/-- `Rat.divInt`-based division of a rational by a natural (kernel-evaluable);
`ratDivNat_eq_div` shows it is ordinary `/`. -/
def ratDivNat (a : ℚ) (n : ℕ) : ℚ := Rat.divInt a.num ((a.den * n : ℕ) : ℤ)

/-- True when a value coerces (via `_to_float`) to a number strictly below
`70` — the per-score test of the rejection loop in
`_determinar_status_final`. -/
def notaBaixa (v : Valor) : Bool :=
  match _to_float v with
  | some q => decide (q < 70)
  | Option.none => false

/-- `_determinar_status_final` (app.py:1967–1992): scan, in order, the
computed QC average, the spreadsheet IQF and the homologation score; any
coercible value below 70 rejects immediately; otherwise the trimmed,
upper-cased approval flag decides (`'N'` rejects, `'S'` approves, anything
else leaves the vendor under review). -/
def _determinar_status_final (aprovado_valor : Option String)
    (nota_homologacao iqf_calculada nota_iqf_planilha : Valor) : String :=
  if notaBaixa iqf_calculada then "REPROVADO"
  else if notaBaixa nota_iqf_planilha then "REPROVADO"
  else if notaBaixa nota_homologacao then "REPROVADO"
  else
    let ap := stripUpper (aprovado_valor.getD "")
    if ap = "N" then "REPROVADO"
    else if ap = "S" then "APROVADO"
    else "EM_ANALISE"

/-- A vendor row of the relational store (`models.py`, class `Fornecedor`):
only the fields the reconciliation reads are carried. -/
structure Fornecedor where
  nome : String
  cnpj : String
deriving DecidableEq

/-- The manual-override record (`models.py`, class `NotaFornecedor`): a
nullable float score, a nullable decision status, a nullable admin note and a
nullable reference score (timestamps and the e-mail flag are not read by the
status computation).  Database floats are finite, so they are plain `ℚ`. -/
structure NotaFornecedor where
  nota_homologacao : Option ℚ
  status_decisao : Option String
  observacao_admin : Option String
  nota_referencia : Option ℚ
deriving DecidableEq

/-- One row of the homologation spreadsheet, with the cells the admin
assembly reads. -/
structure LinhaHomologados where
  agente : Valor
  nome_fantasia : Valor
  cnpj : Valor
  aprovado : Valor
  nota_homologacao : Valor
  iqf : Valor
deriving DecidableEq

/-- The homologation spreadsheet: per-column presence flags (the source
checks `coluna in df.columns` / uses `.get` with defaults) and the rows. -/
structure Homologados where
  tem_agente : Bool
  tem_nome_fantasia : Bool
  tem_cnpj : Bool
  tem_aprovado : Bool
  tem_nota_homologacao : Bool
  tem_iqf : Bool
  linhas : List LinhaHomologados
deriving DecidableEq

/-- One row of the quality-control spreadsheet. -/
structure LinhaControle where
  nome_agente : Valor
  nota : Valor
  observacao : Valor
deriving DecidableEq

/-- The quality-control spreadsheet, with column-presence flags. -/
structure Controle where
  tem_nome_agente : Bool
  tem_nota : Bool
  tem_observacao : Bool
  linhas : List LinhaControle
deriving DecidableEq

/-- `pat in s` on normalised strings (`Series.str.contains(..., regex=False)`):
substring containment. -/
def contemSub (pat s : List Char) : Bool :=
  s.tails.any (fun t => pat.isPrefixOf t)

/-- `pd.to_numeric(cell, errors='coerce')` on one cell, `None` playing the
role of NaN: numbers pass through, NaN/None coerce to NaN, strings go through
the float parser (infinite cells, which pandas would keep as `inf`, are not
modelled and coerce to NaN here). -/
def toNumeric? : Valor → Option ℚ
  | .vnum q _ => some q
  | .vstr s => pyFloat? s.data
  | _ => Option.none

/-- `dropna().astype(str)` on one observation cell. -/
def obsStr : Valor → Option String
  | .vnan => Option.none
  | .vnone => Option.none
  | v => some (strValor v)

/-- The row subset of `_calcular_media_iqf_controle` (app.py:1950–1956):
rows whose normalised `nome_agente` (after `astype(str)`) equals the
normalised target name, or — if no row matches exactly — rows whose
normalised name contains the normalised search name as a substring. -/
def subsetControle (nomePlanilha nomeBusca : String) (df : Controle) :
    List LinhaControle :=
  let alvo := _normalizar_texto
    (.vstr (if nomePlanilha ≠ "" then nomePlanilha else nomeBusca))
  let pExato := fun (r : LinhaControle) =>
    _normalizar_texto (.vstr (strValor r.nome_agente)) == alvo
  let pContem := fun (r : LinhaControle) =>
    contemSub (_normalizar_texto (.vstr nomeBusca)).data
      (_normalizar_texto (.vstr (strValor r.nome_agente))).data
  if df.linhas.any pExato then df.linhas.filter pExato
  else df.linhas.filter pContem

/-- `_calcular_media_iqf_controle` (app.py:1931–1965).  Returns
`some (average, sample count, observation strings)`; the outer `none` models
the exception the source would raise when the matched subset is non-empty but
the sheet lacks a `nota` column (`subset.get('nota')` is `None` and
`.dropna()` on the coerced scalar fails). -/
def _calcular_media_iqf_controle (nomePlanilha nomeBusca : String)
    (df? : Option Controle) : Option (Option ℚ × ℕ × List String) :=
  match df? with
  | Option.none => some (Option.none, 0, [])
  | some df =>
    if df.linhas = [] then some (Option.none, 0, [])
    else if !df.tem_nome_agente then some (Option.none, 0, [])
    else
      let subset := subsetControle nomePlanilha nomeBusca df
      if subset = [] then some (Option.none, 0, [])
      else if !df.tem_nota then Option.none
      else
        let notas_validas := (subset.map (fun r => r.nota)).filterMap toNumeric?
        let total := notas_validas.length
        let media := if total ≠ 0 then
            some (ratDivNat (notas_validas.foldl ratSoma 0) total)
          else Option.none
        let observacoes := if df.tem_observacao then
            (subset.map (fun r => r.observacao)).filterMap obsStr
          else []
        some (media, total, observacoes)

/-- The manual decision status extracted by `_montar_registro_admin`
(app.py:2024–2026): the trimmed upper-cased `status_decisao`, kept only when
it is one of the three legal statuses. -/
def statusManualDe (na : Option NotaFornecedor) : Option String :=
  match na with
  | Option.none => Option.none
  | some n =>
    match n.status_decisao with
    | Option.none => Option.none
    | some s =>
      if s ≠ "" then
        let raw := stripUpper s
        if raw = "APROVADO" ∨ raw = "REPROVADO" ∨ raw = "EM_ANALISE" then some raw
        else Option.none
      else Option.none

/-- The manual homologation score extracted by `_montar_registro_admin`
(app.py:2018–2023); `float` of a database float is the identity. -/
def notaHomologacaoManualDe (na : Option NotaFornecedor) : Option ℚ :=
  match na with
  | Option.none => Option.none
  | some n => n.nota_homologacao

/-- The manual reference score carried on the override (app.py:2028). -/
def notaReferenciaDe (na : Option NotaFornecedor) : Option ℚ :=
  na.bind (fun n => n.nota_referencia)

/-- `str.replace('\r','').replace('\n','').strip()` used on spreadsheet CNPJ
cells (app.py:2046–2053). -/
def limparCnpj (s : String) : String :=
  ⟨strip (s.data.filter (fun c => c ≠ '\r' ∧ c ≠ '\n'))⟩

/-- Row matching of `_montar_registro_admin` (app.py:2034–2053): rows whose
normalised `agente` or `nome_fantasia` equals the normalised vendor name;
when that gives nothing and a `cnpj` column exists, rows whose cleaned CNPJ
equals the vendor's trimmed CNPJ. -/
def registrosCompativeis (f : Fornecedor) (df : Homologados) :
    List LinhaHomologados :=
  let porNome :=
    if df.tem_agente || df.tem_nome_fantasia then
      df.linhas.filter (fun r =>
        (df.tem_agente &&
          (_normalizar_texto r.agente == _normalizar_texto (.vstr f.nome))) ||
        (df.tem_nome_fantasia &&
          (_normalizar_texto r.nome_fantasia == _normalizar_texto (.vstr f.nome))))
    else []
  if porNome = [] ∧ df.tem_cnpj then
    df.linhas.filter (fun r => limparCnpj (strValor r.cnpj) == ⟨strip f.cnpj.data⟩)
  else porNome

/-- The spreadsheet-derived quadruple of `_montar_registro_admin`
(app.py:2030–2060): the display name, the trimmed upper-cased approval flag,
the homologation score (manual one wins when present) and the spreadsheet
IQF, all defaulting when no row matches or the sheet is absent/empty. -/
structure DadosPlanilha where
  nomePlanilha : String
  aprovadoValor : String
  notaHomologacao : Option ℚ
  notaIqfPlanilha : Option ℚ
deriving DecidableEq

def extrairPlanilha (f : Fornecedor) (nh0 : Option ℚ) (dfh : Option Homologados) :
    DadosPlanilha :=
  let vazio : DadosPlanilha :=
    { nomePlanilha := f.nome, aprovadoValor := "", notaHomologacao := nh0,
      notaIqfPlanilha := Option.none }
  match dfh with
  | Option.none => vazio
  | some df =>
    if df.linhas = [] then vazio
    else
      match registrosCompativeis f df with
      | [] => vazio
      | registro :: _ =>
        { nomePlanilha :=
            strValor (if df.tem_agente then registro.agente else .vstr f.nome),
          aprovadoValor :=
            stripUpper (strValor (if df.tem_aprovado then registro.aprovado else .vstr "")),
          notaHomologacao :=
            (match nh0 with
             | Option.none =>
               _to_float (if df.tem_nota_homologacao then registro.nota_homologacao
                          else .vnone)
             | some q => some q),
          notaIqfPlanilha :=
            _to_float (if df.tem_iqf then registro.iqf else .vnone) }

/-- Re-injection of an already-coerced optional score into a Python value, as
it is handed back to `_determinar_status_final` and `_to_float` by the
caller (`None` or a finite float). -/
def valorDe : Option ℚ → Valor
  | Option.none => .vnone
  | some q => .vnum q ""

/-- The slice of the record assembled by `_montar_registro_admin` that the
claims are about. -/
structure RegistroAdmin where
  status : String
  notaIqf : Option ℚ
  observacoes : List String
  totalNotas : ℕ
deriving DecidableEq

/-- `_montar_registro_admin` (app.py:1996–2124), restricted to the status,
score and observation fields: manual-override extraction, spreadsheet
matching, quality-control averaging, `_determinar_status_final`, the
`A CADASTRAR` downgrade and the final manual-decision override.  The outer
`none` propagates the exception path of `_calcular_media_iqf_controle`. -/
def _montar_registro_admin (f : Fornecedor) (na : Option NotaFornecedor)
    (dfh : Option Homologados) (dfc : Option Controle) : Option RegistroAdmin :=
  let nh0 := notaHomologacaoManualDe na
  let status_manual := statusManualDe na
  let nota_referencia_manual := notaReferenciaDe na
  let dados := extrairPlanilha f nh0 dfh
  match _calcular_media_iqf_controle dados.nomePlanilha f.nome dfc with
  | Option.none => Option.none
  | some (media_iqf_controle, total_notas_controle, observacoes_lista) =>
    let iqf0 := match media_iqf_controle with
      | some m => some m
      | Option.none => dados.notaIqfPlanilha
    let iqf_final := match iqf0 with
      | Option.none => nota_referencia_manual
      | some q => some q
    let status0 := _determinar_status_final (some dados.aprovadoValor)
      (valorDe dados.notaHomologacao) (valorDe iqf_final)
      (valorDe dados.notaIqfPlanilha)
    let sem_notas_disponiveis :=
      total_notas_controle = 0 ∧
      _to_float (valorDe dados.notaHomologacao) = Option.none ∧
      _to_float (valorDe dados.notaIqfPlanilha) = Option.none ∧
      _to_float (valorDe nota_referencia_manual) = Option.none
    let status1 := if status0 = "EM_ANALISE" ∧ sem_notas_disponiveis then
        "A CADASTRAR"
      else status0
    let status_final := match status_manual with
      | some s => s
      | Option.none => status1
    some { status := status_final, notaIqf := iqf_final,
           observacoes := observacoes_lista, totalNotas := total_notas_controle }

/-- The observation normalisation of `consultar_dados_homologacao`
(app.py:1772–1777): lower-case, NFD, drop Mn marks (modelled by the
combining block), keep alphanumerics and whitespace, collapse whitespace. -/
def normalizarObservacao (s : String) : String :=
  let l1 := lowerStr s.data
  let l2 := l1.flatMap nfdChar
  let l3 := l2.filter (fun c => !ehCombinante c)
  let l4 := l3.filter (fun c => ehAlnum c || ehEspaco c)
  ⟨juntarEspacos (palavras l4)⟩

/-- `fillna('').astype(str).str.strip()` on one observation cell
(app.py:1760–1766). -/
def fillnaStrStrip (v : Valor) : String :=
  match v with
  | .vnan => ""
  | .vnone => ""
  | v => ⟨strip (strValor v).data⟩

/-- The observation filter of `consultar_dados_homologacao`
(app.py:1758–1781): keep each re-stripped, non-empty observation whose
normalised form is not the literal phrase `"sem comentarios"`. -/
def filtrarObservacoesConsulta (celulas : List Valor) : List String :=
  (celulas.map fillnaStrStrip).filterMap (fun obs =>
    let obs_limpo := strip obs.data
    if obs_limpo = [] then Option.none
    else if normalizarObservacao ⟨obs_limpo⟩ = "sem comentarios" then Option.none
    else some (⟨obs_limpo⟩ : String))

/-- A spreadsheet as seen by the column resolver: the ordered column list,
each column being its header with its cells. -/
abbrev Tabela := List (String × List Valor)

/-- `_contar_valores_textuais` (app.py:1260–1282): count the non-missing
cells whose (string form's) strip is non-empty. -/
def _contar_valores_textuais (serie : List Valor) : ℕ :=
  serie.countP (fun v =>
    match v with
    | .vnan => false
    | .vnone => false
    | .vstr s => !(strip s.data).isEmpty
    | v => !(strip (strValor v).data).isEmpty)

/-- The normalised-key → original-column map of `_colunas_por_candidatos`
(app.py:1304–1308), first occurrence winning and empty keys skipped. -/
def construirMapa (df : Tabela) : List (String × String) :=
  df.foldl (fun mapa par =>
    let chave := _normalizar_chave (.vstr par.1)
    if chave ≠ "" ∧ mapa.lookup chave = Option.none then mapa ++ [(chave, par.1)]
    else mapa) []

/-- Python truthiness of `max_count` (`if max_count:`): present and
non-zero. -/
def mcAtivo : Option ℕ → Bool
  | some m => m != 0
  | Option.none => false

/-- `if max_count and len(encontrados) >= max_count` (app.py:1314, 1325). -/
def limiteAtingido (mc : Option ℕ) (n : ℕ) : Bool :=
  match mc with
  | some m => (m != 0) && decide (m ≤ n)
  | Option.none => false

/-- The candidate-name pass of `_colunas_por_candidatos` (app.py:1309–1315);
the boolean reports the early `return` on reaching `max_count`. -/
def etapaNomes (mapa : List (String × String)) (mc : Option ℕ) :
    List String → List String → List String × Bool
  | [], enc => (enc, false)
  | cand :: resto, enc =>
    match mapa.lookup (_normalizar_chave (.vstr cand)) with
    | some coluna =>
      if coluna ≠ "" ∧ ¬ coluna ∈ enc then
        let enc' := enc ++ [coluna]
        if limiteAtingido mc enc'.length then (enc', true)
        else etapaNomes mapa mc resto enc'
      else etapaNomes mapa mc resto enc
    | Option.none => etapaNomes mapa mc resto enc

/-- The fallback-index pass of `_colunas_por_candidatos` (app.py:1316–1326):
an in-range index contributes its column when it is not yet selected and has
at least one non-empty cell (the source's `0 <= indice` test is carried by
the `ℕ` index type). -/
def etapaFallback (df : Tabela) (mc : Option ℕ) :
    List ℕ → List String → List String × Bool
  | [], enc => (enc, false)
  | indice :: resto, enc =>
    if indice < df.length then
      let coluna := (df.getD indice ("", [])).1
      if ¬ coluna ∈ enc then
        if _contar_valores_textuais (df.getD indice ("", [])).2 = 0 then
          etapaFallback df mc resto enc
        else
          let enc' := enc ++ [coluna]
          if limiteAtingido mc enc'.length then (enc', true)
          else etapaFallback df mc resto enc'
      else etapaFallback df mc resto enc
    else etapaFallback df mc resto enc

/-- The richest-column heuristic of `_colunas_por_candidatos`
(app.py:1327–1336): the first column with the strictly largest positive count
of non-empty textual cells. -/
def melhorColuna (df : Tabela) : Option String :=
  (df.foldl (fun (melhor : Option String × ℕ) par =>
    let contagem := _contar_valores_textuais par.2
    if contagem > melhor.2 then (some par.1, contagem) else melhor)
    (Option.none, 0)).1

/-- `_colunas_por_candidatos` (app.py:1285–1339). -/
def _colunas_por_candidatos (df : Tabela) (candidatos : List String)
    (fallback_indices : List ℕ) (max_count : Option ℕ) : List String :=
  let mapa := construirMapa df
  let r1 := etapaNomes mapa max_count candidatos []
  if r1.2 then r1.1
  else
    let r2 := if fallback_indices ≠ [] then
        etapaFallback df max_count fallback_indices r1.1
      else (r1.1, false)
    if r2.2 then r2.1
    else
      let enc := if r2.1 = [] then
          (match melhorColuna df with
           | some c => [c]
           | Option.none => [])
        else r2.1
      if mcAtivo max_count then enc.take (max_count.getD 0) else enc

/-- A snapshot of the durable storage seen by
`_carregar_documento_de_fontes`: the directories that exist and, keyed by
(directory, filename), the byte content of each regular file (reads are
modelled as always succeeding; an `OSError` merely makes the source skip an
entry, which no claim exercises). -/
structure Sistema where
  diretoriosExistentes : List String
  arquivos : List ((String × String) × List ℕ)

/-- Read a file: `open(...).read()` guarded by `os.path.isfile`. -/
def Sistema.ler (fs : Sistema) (d n : String) : Option (List ℕ) :=
  fs.arquivos.lookup (d, n)

/-- `os.listdir` of a directory, in storage order. -/
def Sistema.listar (fs : Sistema) (d : String) : List String :=
  fs.arquivos.filterMap (fun par => if par.1.1 = d then some par.1.2 else Option.none)

/-- `_normalizar_nome_documento` (app.py:46–61): keep alphanumerics,
lower-cased. -/
def _normalizar_nome_documento (nome : String) : String :=
  if nome = "" then "" else ⟨(nome.data.filter ehAlnum).map lowerChar⟩

/-- The exact-scan test for one directory×variant pair: the file exists and
has non-empty content; on success, the path and the bytes. -/
def verificarCaminho (fs : Sistema) (p : String × String) :
    Option ((String × String) × List ℕ) :=
  match fs.ler p.1 p.2 with
  | some dados => if dados ≠ [] then some (p, dados) else Option.none
  | Option.none => Option.none

/-- Phase A of `_carregar_documento_de_fontes` within one directory
(app.py:168–182): walk the filename variants, skipping already-visited
paths, recording each tested path, returning on the first non-empty hit. -/
def faseANomes (fs : Sistema) (diretorio : String) :
    List String → List (String × String) →
    Option ((String × String) × List ℕ) × List (String × String)
  | [], vistos => (Option.none, vistos)
  | nome :: resto, vistos =>
    let caminho := (diretorio, nome)
    if caminho ∈ vistos then faseANomes fs diretorio resto vistos
    else
      let vistos' := vistos ++ [caminho]
      match fs.ler diretorio nome with
      | Option.none => faseANomes fs diretorio resto vistos'
      | some dados =>
        if dados ≠ [] then (some (caminho, dados), vistos')
        else faseANomes fs diretorio resto vistos'

/-- Phase A over the directory list (app.py:167–182). -/
def faseA (fs : Sistema) :
    List String → List String → List (String × String) →
    Option ((String × String) × List ℕ) × List (String × String)
  | [], _, vistos => (Option.none, vistos)
  | d :: resto, nomes, vistos =>
    match faseANomes fs d nomes vistos with
    | (some r, vistosN) => (some r, vistosN)
    | (Option.none, vistosN) => faseA fs resto nomes vistosN

/-- Phase B within one directory (app.py:196–209): first listed entry, not
visited in phase A, whose normalised name equals the target and whose
content is non-empty. -/
def faseBDir (fs : Sistema) (alvo : String) (d : String)
    (vistos : List (String × String)) :
    List String → Option ((String × String) × List ℕ)
  | [] => Option.none
  | entrada :: resto =>
    if (d, entrada) ∈ vistos then faseBDir fs alvo d vistos resto
    else if _normalizar_nome_documento entrada ≠ alvo then
      faseBDir fs alvo d vistos resto
    else
      match fs.ler d entrada with
      | some dados =>
        if dados ≠ [] then some ((d, entrada), dados)
        else faseBDir fs alvo d vistos resto
      | Option.none => faseBDir fs alvo d vistos resto

/-- Phase B over the directory list (app.py:188–209), skipping directories
that do not exist. -/
def faseB (fs : Sistema) (alvo : String) (vistos : List (String × String)) :
    List String → Option ((String × String) × List ℕ)
  | [] => Option.none
  | d :: resto =>
    if d ∈ fs.diretoriosExistentes then
      match faseBDir fs alvo d vistos (fs.listar d) with
      | some r => some r
      | Option.none => faseB fs alvo vistos resto
    else faseB fs alvo vistos resto

/-- `_carregar_documento_de_fontes` (app.py:148–210), parameterised by the
candidate-directory and filename-variant lists its helpers produce: the
exact-name scan, then (only if that found nothing) the normalised-name scan,
with `(None, None)` — here `none` — when nothing is found. -/
def _carregar_documento_de_fontes (fs : Sistema)
    (diretorios nomes_candidatos : List String) (nome_documento : String) :
    Option ((String × String) × List ℕ) :=
  match faseA fs diretorios nomes_candidatos [] with
  | (some r, _) => some r
  | (Option.none, vistos) =>
    let alvo := _normalizar_nome_documento nome_documento
    if alvo = "" then Option.none
    else faseB fs alvo vistos diretorios

/-- The claim's phrasing of the exact scan: the very first
directory×variant pair, in directory-major order, that exists with
non-empty content. -/
def primeiraCorrespondencia (fs : Sistema) (diretorios nomes : List String) :
    Option ((String × String) × List ℕ) :=
  (diretorios.flatMap (fun d => nomes.map (fun n => (d, n)))).findSome?
    (verificarCaminho fs)

/-! Concrete instances used by counterexamples and witnesses. -/

/-- Two directories, both holding a non-empty `laudo.pdf` (with different
bytes, so the winner is observable). -/
def sistemaDoisDiretorios : Sistema :=
  { diretoriosExistentes := ["d1", "d2"],
    arquivos := [(("d1", "laudo.pdf"), [1]), (("d2", "laudo.pdf"), [2])] }

/-- Two-column table whose first header matches the candidate `"material"`
and whose second column is non-empty. -/
def tabelaMaterialExtra : Tabela :=
  [("MATERIAL", [.vstr "x"]), ("EXTRA", [.vstr "y"])]

/-- Override record carrying the decision `" reprovado "` and nothing else. -/
def notaDecisaoReprovado : NotaFornecedor :=
  { nota_homologacao := Option.none, status_decisao := some " reprovado ",
    observacao_admin := Option.none, nota_referencia := Option.none }

/-- The record `_montar_registro_admin` assembles for a vendor with the
override above and no spreadsheets. -/
def registroReprovadoManual : RegistroAdmin :=
  { status := "REPROVADO", notaIqf := Option.none, observacoes := [], totalNotas := 0 }

/-- Vendor of the QC-grades-[60, 90] scenario. -/
def fornecedorAcme : Fornecedor := ⟨"ACME", "1"⟩

/-- Homologation sheet with one row for ACME carrying approval flag `S` and
no scores. -/
def homologadosAcmeS : Homologados :=
  { tem_agente := true, tem_nome_fantasia := false, tem_cnpj := false,
    tem_aprovado := true, tem_nota_homologacao := false, tem_iqf := false,
    linhas := [⟨.vstr "ACME", .vnone, .vnone, .vstr "S", .vnone, .vnone⟩] }

/-- Quality-control sheet with the two ACME grades 60 and 90. -/
def controleAcme6090 : Controle :=
  { tem_nome_agente := true, tem_nota := true, tem_observacao := false,
    linhas := [⟨.vstr "ACME", .vnum 60 "60.0", .vnan⟩,
               ⟨.vstr "ACME", .vnum 90 "90.0", .vnan⟩] }

/-- Vendor of the nothing-registered scenario. -/
def fornecedorNovo : Fornecedor := ⟨"ACME LTDA", "00"⟩

/-- Homologation sheet with all columns but no rows. -/
def homologadosVazio : Homologados :=
  { tem_agente := true, tem_nome_fantasia := true, tem_cnpj := true,
    tem_aprovado := true, tem_nota_homologacao := true, tem_iqf := true,
    linhas := [] }

/-- Quality-control sheet with all columns but no rows. -/
def controleVazio : Controle :=
  { tem_nome_agente := true, tem_nota := true, tem_observacao := true,
    linhas := [] }

/-- Quality-control sheet whose single ACME row carries the observation
`"Sem comentários"`. -/
def controleSemComentarios : Controle :=
  { tem_nome_agente := true, tem_nota := true, tem_observacao := true,
    linhas := [⟨.vstr "ACME", .vnum 80 "80.0", .vstr "Sem comentários"⟩] }

end Portal

namespace Portal

/-- `ratDeDigitos` is the ordinary signed quotient by the power of ten. -/
theorem ratDeDigitos_eq_div (neg : Bool) (p1 p2 : List Char) :
    ratDeDigitos neg p1 p2 =
      (if neg then -(valorDigitos (p1 ++ p2) : ℚ) else (valorDigitos (p1 ++ p2) : ℚ)) /
        (10 : ℚ) ^ p2.length := by
  unfold ratDeDigitos
  rw [Rat.divInt_eq_div]
  cases neg <;> push_cast <;> ring

/-- `ratSoma` is addition. -/
theorem ratSoma_eq_add (a b : ℚ) : ratSoma a b = a + b := by
  unfold ratSoma
  have ha : (a.den : ℚ) ≠ 0 := by positivity
  have hb : (b.den : ℚ) ≠ 0 := by positivity
  conv_rhs => rw [← Rat.num_div_den a, ← Rat.num_div_den b]
  rw [div_add_div _ _ ha hb, Rat.divInt_eq_div]
  push_cast
  ring_nf

/-- `ratDivNat` is division. -/
theorem ratDivNat_eq_div (a : ℚ) (n : ℕ) : ratDivNat a n = a / n := by
  unfold ratDivNat
  rw [Rat.divInt_eq_div]
  push_cast
  rw [div_mul_eq_div_div, Rat.num_div_den a]

/-- C1: `_determinar_status_final` returns `REPROVADO` whenever any of the
computed QC average, the spreadsheet IQF or the homologation score coerces to
a number strictly below 70 (inspected in that order, regardless of the
approval flag); otherwise the trimmed, case-folded flag decides: `'N'` gives
`REPROVADO`, `'S'` gives `APROVADO`, anything else (including blank or
`None`) gives `EM_ANALISE`. -/
theorem determinar_status_final_caracterizacao
    (aprovado : Option String) (nota_h iqf_calc nota_iqf : Valor) :
    _determinar_status_final aprovado nota_h iqf_calc nota_iqf =
      if notaBaixa iqf_calc || notaBaixa nota_iqf || notaBaixa nota_h then
        "REPROVADO"
      else if stripUpper (aprovado.getD "") = "N" then "REPROVADO"
      else if stripUpper (aprovado.getD "") = "S" then "APROVADO"
      else "EM_ANALISE" := by
  unfold _determinar_status_final
  cases h1 : notaBaixa iqf_calc <;> cases h2 : notaBaixa nota_iqf <;>
    cases h3 : notaBaixa nota_h <;> rfl

/-- C10: on every input quadruple — `None`s, non-numeric strings, NaN,
arbitrary flag text — `_determinar_status_final` totally evaluates to one of
the three strings `APROVADO`, `REPROVADO`, `EM_ANALISE`, and never to the
fourth status `A CADASTRAR`. -/
theorem determinar_status_final_total
    (aprovado : Option String) (nota_h iqf_calc nota_iqf : Valor) :
    (_determinar_status_final aprovado nota_h iqf_calc nota_iqf = "APROVADO" ∨
      _determinar_status_final aprovado nota_h iqf_calc nota_iqf = "REPROVADO" ∨
      _determinar_status_final aprovado nota_h iqf_calc nota_iqf = "EM_ANALISE") ∧
    _determinar_status_final aprovado nota_h iqf_calc nota_iqf ≠ "A CADASTRAR" := by
  unfold _determinar_status_final
  cases notaBaixa iqf_calc <;> cases notaBaixa nota_iqf <;> cases notaBaixa nota_h <;>
    simp only [Bool.false_eq_true, if_true, if_false, ite_true, ite_false,
      reduceIte] <;> (try split_ifs) <;> exact ⟨by simp, by decide⟩

/-- C6: `_to_float` accepts an already-numeric value exactly when it is
finite (NaN and infinities give `None`), and on strings it performs the
separator disambiguation of the source: `"1.234,56"` and `"1234.56"` both
parse to `1234.56`, while `"abc"` gives `None`. -/
theorem to_float_spec :
    (∀ (q : ℚ) (r : String), _to_float (.vnum q r) = some q) ∧
    _to_float .vnan = Option.none ∧
    (∀ neg : Bool, _to_float (.vinf neg) = Option.none) ∧
    _to_float (.vstr "1.234,56") = some (1234.56 : ℚ) ∧
    _to_float (.vstr "1234.56") = some (1234.56 : ℚ) ∧
    _to_float (.vstr "abc") = Option.none := by
  refine ⟨fun q r => ?_, by decide, fun neg => ?_, ?_, ?_, by decide⟩
  · simp [_to_float]
  · cases neg <;> decide
  · rw [show _to_float (.vstr "1.234,56") = some (Rat.divInt 123456 100) from by decide]
    norm_num [Rat.divInt_eq_div]
  · rw [show _to_float (.vstr "1234.56") = some (Rat.divInt 123456 100) from by decide]
    norm_num [Rat.divInt_eq_div]

/-- `dropWhile` is idempotent. -/
theorem dropWhile_dropWhile (p : Char → Bool) (l : List Char) :
    (l.dropWhile p).dropWhile p = l.dropWhile p := by
  induction l with
  | nil => rfl
  | cons c t ih =>
    cases hp : p c <;> simp [List.dropWhile_cons, hp, ih]

/-- The head of a `dropWhile` result falsifies the predicate. -/
theorem head_dropWhile_false (p : Char → Bool) (l : List Char) (c : Char)
    (h : (l.dropWhile p).head? = some c) : p c = false := by
  induction l with
  | nil => simp at h
  | cons d t ih =>
    cases hp : p d
    · rw [List.dropWhile_cons, if_neg (by simp [hp])] at h
      simp at h
      rw [← h]
      exact hp
    · rw [List.dropWhile_cons, if_pos (by simp [hp])] at h
      exact ih h
/-- `dropWhile` fixes a list whose head falsifies the predicate. -/
theorem dropWhile_eq_self_of_head (p : Char → Bool) (l : List Char)
    (h : ∀ c, l.head? = some c → p c = false) : l.dropWhile p = l := by
  cases l with
  | nil => rfl
  | cons c t =>
    rw [List.dropWhile_cons, if_neg]
    simp [h c rfl]

/-- A non-empty prefix shares its head with the larger list. -/
theorem head_of_prefix (s t : List Char) (h : s <+: t) (hs : s ≠ []) :
    t.head? = s.head? := by
  obtain ⟨r, rfl⟩ := h
  cases s with
  | nil => exact absurd rfl hs
  | cons c s' => rfl

/-- `strip` is idempotent (trimming a trimmed string changes nothing). -/
theorem strip_strip (l : List Char) : strip (strip l) = strip l := by
  unfold strip
  set A := fun x : List Char => x.dropWhile ehEspaco with hA
  set s := (A ((A l).reverse)).reverse with hs
  have hsfix : A s = s := by
    rcases he : s with _ | ⟨c, t⟩
    · rfl
    · rw [← he]
      apply dropWhile_eq_self_of_head
      intro c' hc'
      have hpre : s <+: A l := by
        rw [hs]
        have h1 : A ((A l).reverse) <:+ (A l).reverse := List.dropWhile_suffix _
        have h2 : (A ((A l).reverse)).reverse <+: ((A l).reverse).reverse :=
          List.reverse_prefix.2 h1
        rwa [List.reverse_reverse] at h2
      have hhead : (A l).head? = s.head? :=
        head_of_prefix s (A l) hpre (by rw [he]; simp)
      apply head_dropWhile_false ehEspaco l c'
      rw [hhead, hc']
  have hrevfix : A s.reverse = s.reverse := by
    rw [hs, List.reverse_reverse]
    exact dropWhile_dropWhile ehEspaco ((A l).reverse)
  calc (A ((A s).reverse)).reverse
      = (A s.reverse).reverse := by rw [hsfix]
    _ = s.reverse.reverse := by rw [hrevfix]
    _ = s := List.reverse_reverse s

/-- C9 fails on the code: the observation list carried by the reconciled
admin record keeps observations that normalise to the excluded phrase — the
`"sem comentarios"` filter lives only in the consultation endpoint.  The
matched QC row's observation `"Sem comentários"` normalises to the phrase and
is nevertheless in the record's list. -/
theorem observacoes_admin_sem_filtro_contraexemplo :
    (_montar_registro_admin fornecedorAcme Option.none (some homologadosAcmeS)
        (some controleSemComentarios)).map RegistroAdmin.observacoes
      = some ["Sem comentários"] ∧
    normalizarObservacao "Sem comentários" = "sem comentarios" := by
  refine ⟨by decide, by decide⟩

/-- C9 amended: the exactly-the-filtered-observations property holds for the
list built by the consultation endpoint (first conjunct: keep each stripped
non-empty observation not normalising to `"sem comentarios"`); the list
stored on the reconciled admin record is instead the plain `dropna` list of
the matched rows' observation strings, with no emptiness or phrase filter
(second conjunct). -/
theorem observacoes_listas_caracterizacao :
    (∀ celulas : List Valor,
      filtrarObservacoesConsulta celulas =
        (celulas.map fillnaStrStrip).filter
          (fun s => !(s == "") && !(normalizarObservacao s == "sem comentarios"))) ∧
    (∀ (nomeP nomeB : String) (df : Controle) (res : Option ℚ × ℕ × List String),
      df.tem_nome_agente = true → df.tem_observacao = true →
      _calcular_media_iqf_controle nomeP nomeB (some df) = some res →
      res.2.2 = ((subsetControle nomeP nomeB df).map
        (fun r => r.observacao)).filterMap obsStr) := by
  constructor
  · intro celulas
    induction celulas with
    | nil => rfl
    | cons v t ih =>
      unfold filtrarObservacoesConsulta at ih ⊢
      rw [List.map_cons, List.filterMap_cons, List.filter_cons]
      have hfix : strip (fillnaStrStrip v).data = (fillnaStrStrip v).data := by
        rcases v with _ | s | ⟨q, r⟩ | _ | neg <;>
          simp only [fillnaStrStrip] <;> first | rfl | exact strip_strip _
      simp only [hfix]
      by_cases h1 : (fillnaStrStrip v).data = []
      · rw [if_pos h1]
        have hv : fillnaStrStrip v = "" := String.ext h1
        simpa [hv] using ih
      · have hv : fillnaStrStrip v ≠ "" := fun he => h1 (by rw [he])
        rw [if_neg h1]
        have hmk : (⟨(fillnaStrStrip v).data⟩ : String) = fillnaStrStrip v := rfl
        rw [hmk]
        by_cases h2 : normalizarObservacao (fillnaStrStrip v) = "sem comentarios"
        · rw [if_pos h2]
          simpa [hv, h2] using ih
        · rw [if_neg h2]
          simpa [hv, h2] using ih
  · intro nomeP nomeB df res htna htobs hcalc
    unfold _calcular_media_iqf_controle at hcalc
    split at hcalc
    · exact absurd (by assumption : some df = Option.none) (by simp)
    · rename_i df' heq
      injection heq with heqdf
      subst heqdf
      split at hcalc
      · rename_i hlin
        injection hcalc with h
        rw [← h]
        simp [subsetControle, hlin]
      · split at hcalc
        · rename_i hna
          rw [htna] at hna
          simp at hna
        · split at hcalc
          · -- one side of the next decision point: either an early return on
            -- an empty subset, or the exception path (no record at all)
            (try simp only [] at hcalc)
            split at hcalc
            · rename_i hsube
              injection hcalc with h
              rw [← h]
              simp [hsube]
            · simp at hcalc
          · (try simp only [] at hcalc)
            split at hcalc
            · rename_i hsube
              injection hcalc with h
              rw [← h]
              simp [hsube]
            · injection hcalc with h
              rw [← h]

/-- Concrete use of `observacoes_listas_caracterizacao`: the admin-side
observation list of the `"Sem comentários"` row is the unfiltered `dropna`
list, and the consultation filter agrees with its characterisation on a
concrete mixed cell list. -/
theorem observacoes_listas_caracterizacao_witness :
    ["Sem comentários"] =
      ((subsetControle "ACME" "ACME" controleSemComentarios).map
        (fun r => r.observacao)).filterMap obsStr ∧
    filtrarObservacoesConsulta [.vstr " Sem comentários ", .vstr "Atraso", .vnan] =
      ([.vstr " Sem comentários ", .vstr "Atraso", .vnan].map fillnaStrStrip).filter
        (fun s => !(s == "") && !(normalizarObservacao s == "sem comentarios")) :=
  ⟨observacoes_listas_caracterizacao.2 "ACME" "ACME" controleSemComentarios
      (some 80, 1, ["Sem comentários"]) (by decide) (by decide) (by decide),
   observacoes_listas_caracterizacao.1 _⟩

/-- C2: once the override record carries a (valid) manual decision status,
the status assembled by `_montar_registro_admin` is that decision, whatever
the spreadsheets, scores and downgrades said. -/
theorem montar_registro_admin_decisao_manual
    (f : Fornecedor) (na : Option NotaFornecedor) (dfh : Option Homologados)
    (dfc : Option Controle) (d : String)
    (h : statusManualDe na = some d) (reg : RegistroAdmin)
    (hreg : _montar_registro_admin f na dfh dfc = some reg) :
    reg.status = d := by
  unfold _montar_registro_admin at hreg
  simp only [h] at hreg
  rcases hcalc : _calcular_media_iqf_controle
      (extrairPlanilha f (notaHomologacaoManualDe na) dfh).nomePlanilha f.nome dfc
    with _ | ⟨media, total, obs⟩ <;> rw [hcalc] at hreg
  · simp at hreg
  · simp only [Option.some.injEq] at hreg
    rw [← hreg]

/-- Concrete use of `montar_registro_admin_decisao_manual`: an override with
decision `" reprovado "` forces the final status `REPROVADO` even though the
computed status for this vendor would be `A CADASTRAR`. -/
theorem montar_registro_admin_decisao_manual_witness :
    _montar_registro_admin fornecedorNovo (some notaDecisaoReprovado)
        Option.none Option.none = some registroReprovadoManual ∧
    registroReprovadoManual.status = "REPROVADO" :=
  ⟨by decide,
   montar_registro_admin_decisao_manual fornecedorNovo (some notaDecisaoReprovado)
     Option.none Option.none "REPROVADO" (by decide) registroReprovadoManual (by decide)⟩

/-- C3 fails on the code: with QC grades 60 and 90 and approval flag `S` the
assembled status is not `REPROVADO` — the grades are averaged (to 75) before
the `< 70` test, so the individual 60 never reaches the rejection check.  The
second and third conjuncts exhibit the claim's premise: the matched QC rows
carry exactly the grades 60 and 90, and the matched homologation row carries
the flag `S`. -/
theorem cenario_notas_60_90_nao_reprova :
    (_montar_registro_admin fornecedorAcme Option.none (some homologadosAcmeS)
        (some controleAcme6090)).map RegistroAdmin.status ≠ some "REPROVADO" ∧
    (subsetControle "ACME" "ACME" controleAcme6090).map
        (fun r => toNumeric? r.nota) = [some 60, some 90] ∧
    (extrairPlanilha fornecedorAcme Option.none (some homologadosAcmeS)).aprovadoValor
      = "S" := by
  refine ⟨by decide, by decide, by decide⟩

/-- C3 amended: for the vendor with QC grades 60 and 90 and approval flag
`S` (no override), the reconciled status is `APROVADO`: the grades are first
averaged to 75, which passes the `< 70` veto, and the flag then approves. -/
theorem cenario_notas_60_90_aprova :
    _montar_registro_admin fornecedorAcme Option.none (some homologadosAcmeS)
        (some controleAcme6090) =
      some { status := "APROVADO", notaIqf := some 75, observacoes := [],
             totalNotas := 2 } := by
  decide

/-- C4: when the computed status is `EM_ANALISE`, there are zero
quality-control samples and none of the QC average, spreadsheet IQF,
homologation score or manual reference score coerces to a number (and no
manual decision overrides), `_montar_registro_admin` downgrades the status to
`A CADASTRAR`. -/
theorem montar_registro_admin_a_cadastrar
    (f : Fornecedor) (na : Option NotaFornecedor) (dfh : Option Homologados)
    (dfc : Option Controle) (obs : List String)
    (hsm : statusManualDe na = Option.none)
    (href : notaReferenciaDe na = Option.none)
    (hnh : (extrairPlanilha f (notaHomologacaoManualDe na) dfh).notaHomologacao
      = Option.none)
    (hiqf : (extrairPlanilha f (notaHomologacaoManualDe na) dfh).notaIqfPlanilha
      = Option.none)
    (hcalc : _calcular_media_iqf_controle
        (extrairPlanilha f (notaHomologacaoManualDe na) dfh).nomePlanilha f.nome dfc
      = some (Option.none, 0, obs))
    (hst : _determinar_status_final
        (some (extrairPlanilha f (notaHomologacaoManualDe na) dfh).aprovadoValor)
        Valor.vnone Valor.vnone Valor.vnone = "EM_ANALISE") :
    (_montar_registro_admin f na dfh dfc).map RegistroAdmin.status
      = some "A CADASTRAR" := by
  unfold _montar_registro_admin
  simp only [hcalc, hsm, href, hnh, hiqf, valorDe]
  simp only [hst]
  simp [_to_float]

/-- Concrete use of `montar_registro_admin_a_cadastrar`: a vendor with no QC
rows, no homologation row and no override ends up `A CADASTRAR`. -/
theorem montar_registro_admin_a_cadastrar_witness :
    (_montar_registro_admin fornecedorNovo Option.none (some homologadosVazio)
        (some controleVazio)).map RegistroAdmin.status = some "A CADASTRAR" :=
  montar_registro_admin_a_cadastrar fornecedorNovo Option.none
    (some homologadosVazio) (some controleVazio) []
    (by decide) (by decide) (by decide) (by decide) (by decide) (by decide)


/-- With an empty key map the candidate pass finds nothing and never
returns early. -/
theorem etapaNomes_mapa_vazio (mc : Option ℕ) :
    ∀ (cands : List String) (enc : List String),
      etapaNomes [] mc cands enc = (enc, false) := by
  intro cands
  induction cands with
  | nil => intro enc; rfl
  | cons c resto ih =>
    intro enc
    simp only [etapaNomes, List.lookup_nil]
    exact ih enc

/-- On an empty table every fallback index is out of range. -/
theorem etapaFallback_tabela_vazia (mc : Option ℕ) :
    ∀ (indices : List ℕ) (enc : List String),
      etapaFallback [] mc indices enc = (enc, false) := by
  intro indices
  induction indices with
  | nil => intro enc; rfl
  | cons i resto ih =>
    intro enc
    simp only [etapaFallback, List.length_nil]
    rw [if_neg (by omega)]
    exact ih enc

/-- C7 fails on the code: the fallback positional indices are consulted even
when candidate-name matches were found.  On `tabelaMaterialExtra` the
candidate `"material"` matches the first column (first conjunct), yet the
resolver still appends the fallback column at index 1 (second conjunct). -/
theorem colunas_fallback_apos_nome_contraexemplo :
    (etapaNomes (construirMapa tabelaMaterialExtra) Option.none ["material"] []).1
      = ["MATERIAL"] ∧
    _colunas_por_candidatos tabelaMaterialExtra ["material"] [1] Option.none
      = ["MATERIAL", "EXTRA"] := by
  refine ⟨by decide, by decide⟩

/-- C7 amended: the resolver returns an empty list on the empty table (and,
being total, never raises); a fallback index contributes only a column that
is in range, not yet selected, and has at least one non-empty cell — but the
fallback pass runs whenever a non-empty index list is supplied, not only when
no candidate matched; the richest-column heuristic is consulted only when
both passes produced nothing. -/
theorem colunas_por_candidatos_caracterizacao :
    (∀ (candidatos : List String) (fb : List ℕ) (mc : Option ℕ),
      _colunas_por_candidatos [] candidatos fb mc = []) ∧
    (∀ (df : Tabela) (mc : Option ℕ) (indices : List ℕ) (enc : List String)
        (c : String),
      c ∈ (etapaFallback df mc indices enc).1 →
      c ∈ enc ∨ ∃ i, i ∈ indices ∧ i < df.length ∧ (df.getD i ("", [])).1 = c ∧
        _contar_valores_textuais (df.getD i ("", [])).2 ≠ 0) ∧
    (∀ (df : Tabela) (candidatos : List String) (fb : List ℕ) (mc : Option ℕ),
      (etapaNomes (construirMapa df) mc candidatos []).2 = false →
      (etapaFallback df mc fb
        (etapaNomes (construirMapa df) mc candidatos []).1).2 = false →
      fb ≠ [] →
      (etapaFallback df mc fb
        (etapaNomes (construirMapa df) mc candidatos []).1).1 ≠ [] →
      _colunas_por_candidatos df candidatos fb mc =
        (if mcAtivo mc then
          (etapaFallback df mc fb
            (etapaNomes (construirMapa df) mc candidatos []).1).1.take (mc.getD 0)
         else
          (etapaFallback df mc fb
            (etapaNomes (construirMapa df) mc candidatos []).1).1)) := by
  refine ⟨?_, ?_, ?_⟩
  · intro candidatos fb mc
    unfold _colunas_por_candidatos
    simp only [show construirMapa [] = [] from rfl, etapaNomes_mapa_vazio]
    by_cases hfb : fb ≠ [] <;>
      simp [hfb, etapaFallback_tabela_vazia, melhorColuna]
  · intro df mc indices
    induction indices with
    | nil =>
      intro enc c hc
      exact Or.inl hc
    | cons i resto ih =>
      intro enc c hc
      simp only [etapaFallback] at hc
      by_cases hb : i < df.length
      · rw [if_pos hb] at hc
        by_cases hin : (df.getD i ("", [])).1 ∈ enc
        · rw [if_neg (not_not_intro hin)] at hc
          rcases ih enc c hc with h | ⟨j, hj, hlt, hcol, hcnt⟩
          · exact Or.inl h
          · exact Or.inr ⟨j, List.mem_cons_of_mem _ hj, hlt, hcol, hcnt⟩
        · rw [if_pos hin] at hc
          by_cases hcont : _contar_valores_textuais (df.getD i ("", [])).2 = 0
          · rw [if_pos hcont] at hc
            rcases ih enc c hc with h | ⟨j, hj, hlt, hcol, hcnt⟩
            · exact Or.inl h
            · exact Or.inr ⟨j, List.mem_cons_of_mem _ hj, hlt, hcol, hcnt⟩
          · rw [if_neg hcont] at hc
            by_cases hlim : limiteAtingido mc (enc ++ [(df.getD i ("", [])).1]).length = true
            · rw [if_pos hlim] at hc
              rcases List.mem_append.1 hc with h | h
              · exact Or.inl h
              · have hcc : c = (df.getD i ("", [])).1 := by simpa using h
                exact Or.inr ⟨i, List.mem_cons_self _ _, hb, hcc.symm, hcont⟩
            · rw [if_neg hlim] at hc
              rcases ih _ c hc with h | ⟨j, hj, hlt, hcol, hcnt⟩
              · rcases List.mem_append.1 h with h | h
                · exact Or.inl h
                · have hcc : c = (df.getD i ("", [])).1 := by simpa using h
                  exact Or.inr ⟨i, List.mem_cons_self _ _, hb, hcc.symm, hcont⟩
              · exact Or.inr ⟨j, List.mem_cons_of_mem _ hj, hlt, hcol, hcnt⟩
      · rw [if_neg hb] at hc
        rcases ih enc c hc with h | ⟨j, hj, hlt, hcol, hcnt⟩
        · exact Or.inl h
        · exact Or.inr ⟨j, List.mem_cons_of_mem _ hj, hlt, hcol, hcnt⟩
  · intro df candidatos fb mc h1 h2 hfb hne
    unfold _colunas_por_candidatos
    simp [h1, h2, hfb, hne]

/-- Concrete use of `colunas_por_candidatos_caracterizacao`: on the
two-column table the resolver's result is the two passes' output, untouched
by the richest-column heuristic. -/
theorem colunas_por_candidatos_caracterizacao_witness :
    _colunas_por_candidatos tabelaMaterialExtra ["material"] [1] Option.none =
      (if mcAtivo Option.none then
        (etapaFallback tabelaMaterialExtra Option.none [1]
          (etapaNomes (construirMapa tabelaMaterialExtra) Option.none
            ["material"] []).1).1.take ((Option.none : Option ℕ).getD 0)
       else
        (etapaFallback tabelaMaterialExtra Option.none [1]
          (etapaNomes (construirMapa tabelaMaterialExtra) Option.none
            ["material"] []).1).1) :=
  colunas_por_candidatos_caracterizacao.2.2 tabelaMaterialExtra ["material"] [1]
    Option.none (by decide) (by decide) (by decide) (by decide)


/-- A successful exact-scan test returns the tested path. -/
theorem verificarCaminho_fst (fs : Sistema) (p : String × String)
    (r : (String × String) × List ℕ) (h : verificarCaminho fs p = some r) :
    r.1 = p := by
  unfold verificarCaminho at h
  rcases hl : fs.ler p.1 p.2 with _ | dados
  · simp [hl] at h
  · simp only [hl] at h
    by_cases hd : dados ≠ []
    · rw [if_pos hd] at h
      injection h with h
      rw [← h]
    · rw [if_neg hd] at h
      simp at h

/-- The one-directory exact scan is the first hit of `verificarCaminho` over
the variant list, provided every already-visited path was a miss; and when it
misses, every path it has recorded is a miss. -/
theorem faseANomes_spec (fs : Sistema) (d : String) :
    ∀ (nomes : List String) (vistos : List (String × String)),
      (∀ p ∈ vistos, verificarCaminho fs p = Option.none) →
      (faseANomes fs d nomes vistos).1
        = (nomes.map (fun n => (d, n))).findSome? (verificarCaminho fs) ∧
      ((faseANomes fs d nomes vistos).1 = Option.none →
        ∀ p ∈ (faseANomes fs d nomes vistos).2,
          verificarCaminho fs p = Option.none) := by
  intro nomes
  induction nomes with
  | nil =>
    intro vistos hinv
    exact ⟨rfl, fun _ => hinv⟩
  | cons nome resto ih =>
    intro vistos hinv
    simp only [faseANomes]
    by_cases hv : (d, nome) ∈ vistos
    · simp only [if_pos hv, List.map_cons, List.findSome?_cons, hinv _ hv]
      exact ih vistos hinv
    · rw [if_neg hv]
      rcases hl : fs.ler d nome with _ | dados
      · have hver : verificarCaminho fs (d, nome) = Option.none := by
          simp [verificarCaminho, hl]
        have hinv2 : ∀ p ∈ vistos ++ [(d, nome)], verificarCaminho fs p = Option.none := by
          intro p hp
          rcases List.mem_append.1 hp with h | h
          · exact hinv _ h
          · simp at h
            rw [h]
            exact hver
        simp only [List.map_cons, List.findSome?_cons, hver]
        exact ih _ hinv2
      · by_cases hd : dados ≠ []
        · have hver : verificarCaminho fs (d, nome) = some ((d, nome), dados) := by
            simp [verificarCaminho, hl, hd]
          simp only [if_pos hd, List.map_cons, List.findSome?_cons, hver]
          exact ⟨by trivial, fun hfalse => by simp at hfalse⟩
        · have hver : verificarCaminho fs (d, nome) = Option.none := by
            simp [verificarCaminho, hl, hd]
          have hinv2 : ∀ p ∈ vistos ++ [(d, nome)], verificarCaminho fs p = Option.none := by
            intro p hp
            rcases List.mem_append.1 hp with h | h
            · exact hinv _ h
            · simp at h
              rw [h]
              exact hver
          simp only [if_neg hd, List.map_cons, List.findSome?_cons, hver]
          exact ih _ hinv2

/-- The whole exact scan is the first hit over the directory-major
enumeration of directory×variant pairs, with the same visited-path
invariant. -/
theorem faseA_spec (fs : Sistema) :
    ∀ (dirs nomes : List String) (vistos : List (String × String)),
      (∀ p ∈ vistos, verificarCaminho fs p = Option.none) →
      (faseA fs dirs nomes vistos).1
        = (dirs.flatMap (fun d => nomes.map (fun n => (d, n)))).findSome?
            (verificarCaminho fs) ∧
      ((faseA fs dirs nomes vistos).1 = Option.none →
        ∀ p ∈ (faseA fs dirs nomes vistos).2,
          verificarCaminho fs p = Option.none) := by
  intro dirs
  induction dirs with
  | nil =>
    intro nomes vistos hinv
    exact ⟨rfl, fun _ => hinv⟩
  | cons d resto ih =>
    intro nomes vistos hinv
    obtain ⟨h1, h2⟩ := faseANomes_spec fs d nomes vistos hinv
    simp only [faseA]
    rcases hA : faseANomes fs d nomes vistos with ⟨o, v⟩
    rw [hA] at h1 h2
    simp only at h1 h2
    rcases o with _ | r
    · have hmiss : (nomes.map (fun n => (d, n))).findSome? (verificarCaminho fs)
          = Option.none := h1.symm
      obtain ⟨ih1, ih2⟩ := ih nomes v (h2 rfl)
      constructor
      · rw [List.flatMap_cons, List.findSome?_append, hmiss]
        simpa using ih1
      · intro hnone
        exact ih2 hnone
    · constructor
      · rw [List.flatMap_cons, List.findSome?_append, ← h1]
        rfl
      · intro hfalse
        simp at hfalse

/-- When the claim-side first-match function finds a pair, the resolver
returns exactly it (in particular the normalised-name scan is not
consulted). -/
theorem carregar_de_primeira (fs : Sistema) (dirs nomes : List String)
    (nd : String) (r : (String × String) × List ℕ)
    (h : primeiraCorrespondencia fs dirs nomes = some r) :
    _carregar_documento_de_fontes fs dirs nomes nd = some r := by
  unfold _carregar_documento_de_fontes
  obtain ⟨h1, _⟩ := faseA_spec fs dirs nomes [] (by simp)
  unfold primeiraCorrespondencia at h
  rcases hA : faseA fs dirs nomes [] with ⟨o, v⟩
  rw [hA] at h1
  simp only at h1
  rw [h1.trans h]

/-- When no directory×variant pair exists with non-empty content and no
listed entry matches the normalised target with non-empty content, the
resolver returns `none` (the `(None, None)` outcome), without raising. -/
theorem carregar_nada (fs : Sistema) (dirs nomes : List String) (nd : String)
    (hA : ∀ d ∈ dirs, ∀ n ∈ nomes, verificarCaminho fs (d, n) = Option.none)
    (hB : ∀ d ∈ dirs, ∀ e ∈ fs.listar d,
      _normalizar_nome_documento e = _normalizar_nome_documento nd →
      verificarCaminho fs (d, e) = Option.none) :
    _carregar_documento_de_fontes fs dirs nomes nd = Option.none := by
  have hBdir : ∀ (d : String) (vistos : List (String × String))
      (entradas : List String),
      (∀ e ∈ entradas, _normalizar_nome_documento e = _normalizar_nome_documento nd →
        verificarCaminho fs (d, e) = Option.none) →
      faseBDir fs (_normalizar_nome_documento nd) d vistos entradas = Option.none := by
    intro d vistos entradas
    induction entradas with
    | nil => intro _; rfl
    | cons e resto ih =>
      intro he
      simp only [faseBDir]
      by_cases hv : (d, e) ∈ vistos
      · rw [if_pos hv]
        exact ih (fun x hx => he x (List.mem_cons_of_mem _ hx))
      · rw [if_neg hv]
        by_cases hn : _normalizar_nome_documento e ≠ _normalizar_nome_documento nd
        · rw [if_pos hn]
          exact ih (fun x hx => he x (List.mem_cons_of_mem _ hx))
        · rw [if_neg hn]
          have hne : _normalizar_nome_documento e = _normalizar_nome_documento nd :=
            not_not.1 hn
          have hver := he e (List.mem_cons_self _ _) hne
          rcases hl : fs.ler d e with _ | dados
          · simp only [hl]
            exact ih (fun x hx => he x (List.mem_cons_of_mem _ hx))
          · have hd : ¬ dados ≠ [] := by
              intro hcon
              rw [show verificarCaminho fs (d, e) = some ((d, e), dados) from by
                simp [verificarCaminho, hl, hcon]] at hver
              simp at hver
            simp only [hl]
            rw [if_neg hd]
            exact ih (fun x hx => he x (List.mem_cons_of_mem _ hx))
  have hBall : ∀ (ds : List String) (vistos : List (String × String)),
      (∀ d ∈ ds, ∀ e ∈ fs.listar d,
        _normalizar_nome_documento e = _normalizar_nome_documento nd →
        verificarCaminho fs (d, e) = Option.none) →
      faseB fs (_normalizar_nome_documento nd) vistos ds = Option.none := by
    intro ds
    induction ds with
    | nil => intro _ _; rfl
    | cons d resto ih =>
      intro vistos hds
      simp only [faseB]
      by_cases hex : d ∈ fs.diretoriosExistentes
      · rw [if_pos hex, hBdir d vistos (fs.listar d) (hds d (List.mem_cons_self _ _))]
        exact ih vistos (fun x hx => hds x (List.mem_cons_of_mem _ hx))
      · rw [if_neg hex]
        exact ih vistos (fun x hx => hds x (List.mem_cons_of_mem _ hx))
  unfold _carregar_documento_de_fontes
  obtain ⟨h1, h2⟩ := faseA_spec fs dirs nomes [] (by simp)
  have hmiss : (dirs.flatMap (fun d => nomes.map (fun n => (d, n)))).findSome?
      (verificarCaminho fs) = Option.none := by
    rw [List.findSome?_eq_none_iff]
    intro p hp
    rw [List.mem_flatMap] at hp
    obtain ⟨d, hd, hp⟩ := hp
    rw [List.mem_map] at hp
    obtain ⟨n, hn, rfl⟩ := hp
    exact hA d hd n hn
  rcases hAres : faseA fs dirs nomes [] with ⟨o, v⟩
  rw [hAres] at h1
  simp only at h1
  rcases o with _ | r
  · simp only
    by_cases halvo : _normalizar_nome_documento nd = ""
    · rw [if_pos halvo]
    · rw [if_neg halvo]
      exact hBall dirs v hB
  · rw [← h1] at hmiss
    simp at hmiss

/-- C8: the resolver is first-match-wins over the directory-major
enumeration of directory×variant pairs (first conjunct: any hit of the
claim-side first-match function is returned as is, so the normalised-name
scan runs only when the exact scan found nothing); with two directories in
priority order both containing a usable file, the earlier one wins (second
conjunct); and when nothing matches in any directory, variant or phase, the
result is `none` rather than an error (third conjunct). -/
theorem carregar_documento_de_fontes_spec :
    (∀ (fs : Sistema) (dirs nomes : List String) (nd : String)
        (r : (String × String) × List ℕ),
      primeiraCorrespondencia fs dirs nomes = some r →
      _carregar_documento_de_fontes fs dirs nomes nd = some r) ∧
    (∀ (fs : Sistema) (d1 : String) (resto nomes : List String) (nd : String),
      (∃ n ∈ nomes, (verificarCaminho fs (d1, n)).isSome) →
      ∃ n b, _carregar_documento_de_fontes fs (d1 :: resto) nomes nd
        = some ((d1, n), b)) ∧
    (∀ (fs : Sistema) (dirs nomes : List String) (nd : String),
      (∀ d ∈ dirs, ∀ n ∈ nomes, verificarCaminho fs (d, n) = Option.none) →
      (∀ d ∈ dirs, ∀ e ∈ fs.listar d,
        _normalizar_nome_documento e = _normalizar_nome_documento nd →
        verificarCaminho fs (d, e) = Option.none) →
      _carregar_documento_de_fontes fs dirs nomes nd = Option.none) := by
  refine ⟨carregar_de_primeira, ?_, carregar_nada⟩
  intro fs d1 resto nomes nd hex
  obtain ⟨n0, hn0, hsome⟩ := hex
  have hne : (nomes.map (fun n => (d1, n))).findSome? (verificarCaminho fs)
      ≠ Option.none := by
    intro h0
    rw [List.findSome?_eq_none_iff] at h0
    rw [h0 (d1, n0) (List.mem_map.2 ⟨n0, hn0, rfl⟩)] at hsome
    simp at hsome
  obtain ⟨y, hy⟩ := Option.ne_none_iff_exists'.1 hne
  have hprim : primeiraCorrespondencia fs (d1 :: resto) nomes = some y := by
    unfold primeiraCorrespondencia
    rw [List.flatMap_cons, List.findSome?_append, hy]
    rfl
  obtain ⟨x, hx, hfx⟩ := List.exists_of_findSome?_eq_some hy
  obtain ⟨n1, hn1, rfl⟩ := List.mem_map.1 hx
  have hy1 : y.1 = (d1, n1) := verificarCaminho_fst fs _ y hfx
  have hcar := carregar_de_primeira fs (d1 :: resto) nomes nd y hprim
  refine ⟨n1, y.2, ?_⟩
  rw [hcar]
  rcases y with ⟨p, b⟩
  simp only at hy1 ⊢
  rw [hy1]

/-- Concrete use of `carregar_documento_de_fontes_spec`: with `d1` before
`d2`, both containing a non-empty `laudo.pdf`, the winner comes from
`d1`. -/
theorem carregar_documento_de_fontes_spec_witness :
    ∃ n b, _carregar_documento_de_fontes sistemaDoisDiretorios ["d1", "d2"]
      ["laudo.pdf"] "laudo.pdf" = some (("d1", n), b) :=
  carregar_documento_de_fontes_spec.2.1 sistemaDoisDiretorios "d1" ["d2"]
    ["laudo.pdf"] "laudo.pdf" ⟨"laudo.pdf", by decide, by decide⟩


/-- A successful table lookup exhibits its table entry. -/
theorem lookup_mem_tabela :
    ∀ (tab : List (Char × Char)) (c d : Char),
      tab.lookup c = some d → (c, d) ∈ tab := by
  intro tab
  induction tab with
  | nil => intro c d h; simp [List.lookup] at h
  | cons p t ih =>
    intro c d h
    cases p with
    | mk k v =>
      by_cases hck : c = k
      · subst hck
        simp [List.lookup] at h
        rw [h]
        exact List.mem_cons_self _ _
      · have hbeq : (c == k) = false := beq_eq_false_iff_ne.2 hck
        simp [List.lookup, hbeq] at h
        exact List.mem_cons_of_mem _ (ih c d h)

/-- The facts needed about every entry of the case table: the upper-case
letter is `upperChar`-fixed, neither side is whitespace, and the upper-case
letter is decomposition-fixed and non-combining. -/
theorem valores_tabelaUpper :
    ∀ p ∈ tabelaUpper,
      upperChar p.2 = p.2 ∧ ehEspaco p.1 = false ∧ ehEspaco p.2 = false ∧
        nfkdChar p.2 = [p.2] ∧ ehCombinante p.2 = false := by
  decide

/-- `upperChar` is idempotent. -/
theorem upperChar_idem (c : Char) : upperChar (upperChar c) = upperChar c := by
  rcases h : tabelaUpper.lookup c with _ | d
  · have hc : upperChar c = c := by unfold upperChar; rw [h]; rfl
    rw [hc]
    exact hc
  · have hmem := lookup_mem_tabela tabelaUpper c d h
    have hval : upperChar c = d := by unfold upperChar; rw [h]; rfl
    rw [hval]
    exact (valores_tabelaUpper (c, d) hmem).1

/-- `upperChar` neither creates nor destroys whitespace. -/
theorem ehEspaco_upperChar (c : Char) : ehEspaco (upperChar c) = ehEspaco c := by
  rcases h : tabelaUpper.lookup c with _ | d
  · rw [show upperChar c = c from by unfold upperChar; rw [h]; rfl]
  · have hmem := lookup_mem_tabela tabelaUpper c d h
    obtain ⟨_, h1, h2, _, _⟩ := valores_tabelaUpper (c, d) hmem
    rw [show upperChar c = d from by unfold upperChar; rw [h]; rfl]
    rw [h1, h2]

/-- `upperChar` preserves decomposition-fixed, non-combining characters. -/
theorem upperChar_boa (c : Char)
    (h : nfkdChar c = [c] ∧ ehCombinante c = false) :
    nfkdChar (upperChar c) = [upperChar c] ∧
      ehCombinante (upperChar c) = false := by
  rcases hl : tabelaUpper.lookup c with _ | d
  · rw [show upperChar c = c from by unfold upperChar; rw [hl]; rfl]
    exact h
  · have hmem := lookup_mem_tabela tabelaUpper c d hl
    obtain ⟨_, _, _, h1, h2⟩ := valores_tabelaUpper (c, d) hmem
    rw [show upperChar c = d from by unfold upperChar; rw [hl]; rfl]
    exact ⟨h1, h2⟩

/-- A non-combining character produced by a decomposition is itself
decomposition-fixed. -/
theorem nfkd_fixo (c d : Char) (hd : d ∈ nfkdChar c)
    (hcomb : ehCombinante d = false) : nfkdChar d = [d] := by
  unfold nfkdChar at hd
  split_ifs at hd with h1 h2 h3 h4 h5 h6 h7 h8
  all_goals
    try (simp at hd
         rcases hd with rfl | rfl
         · decide
         · exact absurd hcomb (by decide))
  simp at hd
  subst hd
  simp [nfkdChar, h1, h2, h3, h4, h5, h6, h7, h8]

/-- NFKD fixes a string of decomposition-fixed characters. -/
theorem nfkdStr_fixa (l : List Char) (h : ∀ c ∈ l, nfkdChar c = [c]) :
    nfkdStr l = l := by
  induction l with
  | nil => rfl
  | cons c t ih =>
    unfold nfkdStr at ih ⊢
    rw [List.flatMap_cons, h c (List.mem_cons_self _ _)]
    simp [ih (fun x hx => h x (List.mem_cons_of_mem _ hx))]

/-- The combining-mark filter fixes a string without combining marks. -/
theorem semCombinantes_fixa (l : List Char)
    (h : ∀ c ∈ l, ehCombinante c = false) : semCombinantes l = l := by
  unfold semCombinantes
  rw [List.filter_eq_self]
  intro a ha
  simp [h a ha]

/-- Characters of split words come from the input or the accumulator. -/
theorem mem_palavrasAux :
    ∀ (l acc : List Char) (w : List Char), w ∈ palavrasAux l acc →
      ∀ c ∈ w, c ∈ l ∨ c ∈ acc := by
  intro l
  induction l with
  | nil =>
    intro acc w hw c hc
    unfold palavrasAux at hw
    by_cases hacc : acc = []
    · rw [if_pos hacc] at hw
      simp at hw
    · rw [if_neg hacc] at hw
      simp at hw
      subst hw
      exact Or.inr (List.mem_reverse.1 hc)
  | cons a t ih =>
    intro acc w hw c hc
    unfold palavrasAux at hw
    by_cases hsp : ehEspaco a
    · rw [if_pos hsp] at hw
      by_cases hacc : acc = []
      · rw [if_pos hacc] at hw
        rcases ih [] w hw c hc with h | h
        · exact Or.inl (List.mem_cons_of_mem _ h)
        · simp at h
      · rw [if_neg hacc] at hw
        rcases List.mem_cons.1 hw with rfl | hw2
        · exact Or.inr (List.mem_reverse.1 hc)
        · rcases ih [] w hw2 c hc with h | h
          · exact Or.inl (List.mem_cons_of_mem _ h)
          · simp at h
    · rw [if_neg hsp] at hw
      rcases ih (a :: acc) w hw c hc with h | h
      · exact Or.inl (List.mem_cons_of_mem _ h)
      · rcases List.mem_cons.1 h with rfl | h2
        · exact Or.inl (List.mem_cons_self _ _)
        · exact Or.inr h2

/-- Characters of a space-join are spaces or come from some word. -/
theorem mem_juntarEspacos :
    ∀ (ws : List (List Char)) (c : Char), c ∈ juntarEspacos ws →
      c = ' ' ∨ ∃ w ∈ ws, c ∈ w := by
  intro ws
  induction ws with
  | nil => intro c hc; simp [juntarEspacos] at hc
  | cons w ws ih =>
    intro c hc
    cases ws with
    | nil =>
      exact Or.inr ⟨w, List.mem_cons_self _ _, hc⟩
    | cons w2 ws2 =>
      rw [show juntarEspacos (w :: w2 :: ws2) = w ++ ' ' :: juntarEspacos (w2 :: ws2)
        from rfl] at hc
      rcases List.mem_append.1 hc with h | h
      · exact Or.inr ⟨w, List.mem_cons_self _ _, h⟩
      · rcases List.mem_cons.1 h with rfl | h2
        · exact Or.inl rfl
        · rcases ih c h2 with h3 | ⟨w3, hw3, hc3⟩
          · exact Or.inl h3
          · exact Or.inr ⟨w3, List.mem_cons_of_mem _ hw3, hc3⟩

/-- Split words are non-empty and whitespace-free (given a whitespace-free
accumulator). -/
theorem palavrasAux_spec :
    ∀ (l acc : List Char), (∀ c ∈ acc, ehEspaco c = false) →
      ∀ w ∈ palavrasAux l acc, w ≠ [] ∧ ∀ c ∈ w, ehEspaco c = false := by
  intro l
  induction l with
  | nil =>
    intro acc hacc w hw
    unfold palavrasAux at hw
    by_cases h : acc = []
    · rw [if_pos h] at hw
      simp at hw
    · rw [if_neg h] at hw
      simp at hw
      subst hw
      refine ⟨by simpa using h, ?_⟩
      intro c hc
      exact hacc c (List.mem_reverse.1 hc)
  | cons a t ih =>
    intro acc hacc w hw
    unfold palavrasAux at hw
    by_cases hsp : ehEspaco a
    · rw [if_pos hsp] at hw
      by_cases h : acc = []
      · rw [if_pos h] at hw
        exact ih [] (by simp) w hw
      · rw [if_neg h] at hw
        rcases List.mem_cons.1 hw with rfl | hw2
        · refine ⟨by simpa using h, ?_⟩
          intro c hc
          exact hacc c (List.mem_reverse.1 hc)
        · exact ih [] (by simp) w hw2
    · rw [if_neg hsp] at hw
      refine ih (a :: acc) ?_ w hw
      intro c hc
      rcases List.mem_cons.1 hc with rfl | h2
      · simpa using hsp
      · exact hacc c h2

/-- Splitting walks over a whitespace-free block by accumulating it. -/
theorem palavrasAux_bloco :
    ∀ (w rest acc : List Char), (∀ c ∈ w, ehEspaco c = false) →
      palavrasAux (w ++ rest) acc = palavrasAux rest (w.reverse ++ acc) := by
  intro w
  induction w with
  | nil => intro rest acc _; simp
  | cons a w2 ih =>
    intro rest acc hw
    rw [List.cons_append]
    rw [show palavrasAux (a :: (w2 ++ rest)) acc =
        (if ehEspaco a = true then
          (if acc = [] then palavrasAux (w2 ++ rest) []
           else acc.reverse :: palavrasAux (w2 ++ rest) [])
         else palavrasAux (w2 ++ rest) (a :: acc)) from rfl]
    rw [if_neg (by simp [hw a (List.mem_cons_self _ _)])]
    rw [ih rest (a :: acc) (fun c hc => hw c (List.mem_cons_of_mem _ hc))]
    simp

/-- Splitting a space-join of non-empty whitespace-free words recovers the
words. -/
theorem palavras_juntar :
    ∀ ws : List (List Char),
      (∀ w ∈ ws, w ≠ [] ∧ ∀ c ∈ w, ehEspaco c = false) →
      palavras (juntarEspacos ws) = ws := by
  intro ws
  induction ws with
  | nil => intro _; rfl
  | cons w ws ih =>
    intro hws
    obtain ⟨hw, hwc⟩ := hws w (List.mem_cons_self _ _)
    cases ws with
    | nil =>
      show palavrasAux w [] = [w]
      rw [show w = w ++ ([] : List Char) from by simp] at hwc ⊢
      rw [palavrasAux_bloco w [] [] (by simpa using hwc)]
      unfold palavrasAux
      rw [if_neg (by simpa using hw)]
      simp
    | cons w2 ws2 =>
      show palavrasAux (w ++ ' ' :: juntarEspacos (w2 :: ws2)) [] = w :: w2 :: ws2
      rw [palavrasAux_bloco w _ [] hwc]
      simp only [palavrasAux]
      rw [if_pos (show ehEspaco ' ' = true from by decide)]
      rw [if_neg (show ¬(w.reverse ++ [] = []) from by simpa using hw)]
      simp only [List.append_nil, List.reverse_reverse]
      rw [show palavrasAux (juntarEspacos (w2 :: ws2)) [] =
        palavras (juntarEspacos (w2 :: ws2)) from rfl]
      rw [ih (fun x hx => hws x (List.mem_cons_of_mem _ hx))]

/-- `upper` distributes over a space-join. -/
theorem upperStr_juntar :
    ∀ ws : List (List Char),
      upperStr (juntarEspacos ws) = juntarEspacos (ws.map upperStr) := by
  intro ws
  induction ws with
  | nil => rfl
  | cons w ws ih =>
    cases ws with
    | nil => rfl
    | cons w2 ws2 =>
      show upperStr (w ++ ' ' :: juntarEspacos (w2 :: ws2)) = _
      unfold upperStr at ih ⊢
      rw [List.map_append, List.map_cons]
      rw [show upperChar ' ' = ' ' from rfl, ih]
      rfl

/-- A space-join of non-empty words is non-empty. -/
theorem juntar_ne_nil :
    ∀ ws : List (List Char), ws ≠ [] → (∀ w ∈ ws, w ≠ []) →
      juntarEspacos ws ≠ [] := by
  intro ws hne hws
  cases ws with
  | nil => exact absurd rfl hne
  | cons w ws =>
    cases ws with
    | nil => exact hws w (List.mem_cons_self _ _)
    | cons w2 ws2 =>
      show w ++ ' ' :: juntarEspacos (w2 :: ws2) ≠ []
      simp

/-- The head of a space-join of words headed by a non-empty word. -/
theorem head_juntar (w : List Char) (ws : List (List Char)) (hw : w ≠ []) :
    (juntarEspacos (w :: ws)).head? = w.head? := by
  cases ws with
  | nil => rfl
  | cons w2 ws2 =>
    show (w ++ ' ' :: juntarEspacos (w2 :: ws2)).head? = w.head?
    cases w with
    | nil => exact absurd rfl hw
    | cons a t => rfl

/-- The last character of a space-join of non-empty whitespace-free words is
not whitespace. -/
theorem getLast_juntar_nao_espaco :
    ∀ ws : List (List Char),
      (∀ w ∈ ws, w ≠ [] ∧ ∀ c ∈ w, ehEspaco c = false) →
      ∀ c, (juntarEspacos ws).getLast? = some c → ehEspaco c = false := by
  intro ws
  induction ws with
  | nil => intro _ c hc; simp [juntarEspacos] at hc
  | cons w ws ih =>
    intro hws c hc
    cases ws with
    | nil =>
      obtain ⟨_, hwc⟩ := hws w (List.mem_cons_self _ _)
      exact hwc c (List.mem_of_mem_getLast? hc)
    | cons w2 ws2 =>
      rw [show juntarEspacos (w :: w2 :: ws2) = w ++ ' ' :: juntarEspacos (w2 :: ws2)
        from rfl] at hc
      have hjne : juntarEspacos (w2 :: ws2) ≠ [] :=
        juntar_ne_nil _ (by simp) (fun x hx => (hws x (List.mem_cons_of_mem _ hx)).1)
      rw [List.getLast?_append_of_ne_nil _ (by simp)] at hc
      rw [show (' ' :: juntarEspacos (w2 :: ws2)) = [' '] ++ juntarEspacos (w2 :: ws2)
        from rfl] at hc
      rw [List.getLast?_append_of_ne_nil _ hjne] at hc
      exact ih (fun x hx => hws x (List.mem_cons_of_mem _ hx)) c hc

/-- `strip` fixes a list whose first and last characters are not
whitespace. -/
theorem strip_eq_self (l : List Char)
    (hh : ∀ c, l.head? = some c → ehEspaco c = false)
    (hl : ∀ c, l.getLast? = some c → ehEspaco c = false) : strip l = l := by
  unfold strip
  rw [dropWhile_eq_self_of_head _ _ hh]
  rw [dropWhile_eq_self_of_head _ _ (fun c hc => hl c (by rwa [List.head?_reverse] at hc))]
  exact List.reverse_reverse l

/-- `strip` fixes a space-join of non-empty whitespace-free words. -/
theorem strip_juntar (ws : List (List Char))
    (hws : ∀ w ∈ ws, w ≠ [] ∧ ∀ c ∈ w, ehEspaco c = false) :
    strip (juntarEspacos ws) = juntarEspacos ws := by
  cases ws with
  | nil => rfl
  | cons w ws2 =>
    obtain ⟨hw, hwc⟩ := hws w (List.mem_cons_self _ _)
    apply strip_eq_self
    · intro c hc
      rw [head_juntar w ws2 hw] at hc
      exact hwc c (List.mem_of_mem_head? hc)
    · exact getLast_juntar_nao_espaco _ hws


/-- Alphanumeric characters are not whitespace. -/
theorem ehAlnum_nao_espaco (c : Char) (h : ehAlnum c = true) :
    ehEspaco c = false := by
  by_contra hcon
  have hsp : ehEspaco c = true := by
    cases hx : ehEspaco c
    · exact absurd hx hcon
    · rfl
  unfold ehEspaco at hsp
  simp at hsp
  rcases hsp with ((((rfl | rfl) | rfl) | rfl) | rfl) | rfl <;>
    exact absurd h (by decide)

/-- `upper` fixes a string of `upperChar`-fixed characters. -/
theorem upperStr_fixa (l : List Char) (h : ∀ c ∈ l, upperChar c = c) :
    upperStr l = l := by
  induction l with
  | nil => rfl
  | cons a t ih =>
    unfold upperStr at ih ⊢
    rw [List.map_cons, h a (List.mem_cons_self _ _),
      ih (fun c hc => h c (List.mem_cons_of_mem _ hc))]

/-- `upper` is idempotent on strings. -/
theorem upperStr_upperStr (w : List Char) : upperStr (upperStr w) = upperStr w := by
  unfold upperStr
  rw [List.map_map]
  exact List.map_eq_map_iff.mpr (fun a _ => upperChar_idem a)

/-- Whitespace collapse fixes a whitespace-free string. -/
theorem colapsar_sem_espacos (l : List Char)
    (h : ∀ c ∈ l, ehEspaco c = false) : colapsar l = l := by
  by_cases hl : l = []
  · subst hl
    rfl
  · unfold colapsar palavras
    rw [show palavrasAux l [] = palavrasAux (l ++ []) [] from by rw [List.append_nil]]
    rw [palavrasAux_bloco l [] [] h]
    simp only [palavrasAux]
    rw [if_neg (show ¬(l.reverse ++ [] = []) from by simp [hl])]
    simp [juntarEspacos]

/-- `strip` fixes a whitespace-free string. -/
theorem strip_sem_espacos (l : List Char)
    (h : ∀ c ∈ l, ehEspaco c = false) : strip l = l :=
  strip_eq_self l (fun c hc => h c (List.mem_of_mem_head? hc))
    (fun c hc => h c (List.mem_of_mem_getLast? hc))

/-- The output of `normTexto` is fixed by whitespace collapse, upper-casing
and stripping, and each of its characters is decomposition-fixed,
non-combining and upper-case-fixed. -/
theorem normTexto_fixos (l : List Char) :
    colapsar (normTexto l) = normTexto l ∧
    upperStr (normTexto l) = normTexto l ∧
    strip (normTexto l) = normTexto l ∧
    ∀ c ∈ normTexto l,
      nfkdChar c = [c] ∧ ehCombinante c = false ∧ upperChar c = c := by
  have hy_boa : ∀ c ∈ semCombinantes (nfkdStr l),
      nfkdChar c = [c] ∧ ehCombinante c = false := by
    intro c hc
    have hcomb : ehCombinante c = false := by
      have := List.of_mem_filter hc
      simpa using this
    have hmem : c ∈ nfkdStr l := List.mem_of_mem_filter hc
    rw [show nfkdStr l = l.flatMap nfkdChar from rfl, List.mem_flatMap] at hmem
    obtain ⟨c0, _, hc0⟩ := hmem
    exact ⟨nfkd_fixo c0 c hc0 hcomb, hcomb⟩
  have hws_spec : ∀ w ∈ palavras (semCombinantes (nfkdStr l)),
      w ≠ [] ∧ ∀ c ∈ w, ehEspaco c = false :=
    fun w hw => palavrasAux_spec _ [] (by simp) w hw
  have hws2 : ∀ w ∈ (palavras (semCombinantes (nfkdStr l))).map upperStr,
      w ≠ [] ∧ ∀ c ∈ w, ehEspaco c = false := by
    intro w hw
    obtain ⟨w0, hw0, rfl⟩ := List.mem_map.1 hw
    obtain ⟨hne, hnw⟩ := hws_spec w0 hw0
    refine ⟨by simpa [upperStr] using hne, ?_⟩
    intro c hc
    obtain ⟨c0, hc0, rfl⟩ := List.mem_map.1 hc
    rw [ehEspaco_upperChar]
    exact hnw c0 hc0
  have hT : normTexto l =
      juntarEspacos ((palavras (semCombinantes (nfkdStr l))).map upperStr) := by
    show strip (upperStr (colapsar (semCombinantes (nfkdStr l)))) = _
    unfold colapsar
    rw [upperStr_juntar]
    exact strip_juntar _ hws2
  refine ⟨?_, ?_, ?_, ?_⟩
  · rw [hT]
    unfold colapsar
    rw [palavras_juntar _ hws2]
  · rw [hT, upperStr_juntar]
    congr 1
    rw [List.map_map]
    exact List.map_eq_map_iff.mpr (fun a _ => upperStr_upperStr a)
  · rw [hT]
    exact strip_juntar _ hws2
  · intro c hc
    rw [hT] at hc
    rcases mem_juntarEspacos _ c hc with rfl | ⟨w, hw, hcw⟩
    · exact ⟨by decide, by decide, by decide⟩
    · obtain ⟨w0, hw0, rfl⟩ := List.mem_map.1 hw
      obtain ⟨c0, hc0, rfl⟩ := List.mem_map.1 hcw
      have hc0y : c0 ∈ semCombinantes (nfkdStr l) := by
        rcases mem_palavrasAux _ [] w0 hw0 c0 hc0 with h | h
        · exact h
        · simp at h
      obtain ⟨h1, h2⟩ := upperChar_boa c0 (hy_boa c0 hc0y)
      exact ⟨h1, h2, upperChar_idem c0⟩

/-- The display normaliser is idempotent at the character-list level. -/
theorem normTexto_idem (l : List Char) :
    normTexto (normTexto l) = normTexto l := by
  obtain ⟨hcol, hupper, hstrip, hchars⟩ := normTexto_fixos l
  have h1 : nfkdStr (normTexto l) = normTexto l :=
    nfkdStr_fixa _ (fun c hc => (hchars c hc).1)
  have h2 : semCombinantes (normTexto l) = normTexto l :=
    semCombinantes_fixa _ (fun c hc => (hchars c hc).2.1)
  show strip (upperStr (colapsar (semCombinantes (nfkdStr (normTexto l))))) = _
  rw [h1, h2, hcol, hupper, hstrip]

/-- The key normaliser is idempotent at the character-list level. -/
theorem normChave_nucleo (l : List Char) :
    (normTexto ((normTexto l).filter ehAlnum)).filter ehAlnum
      = (normTexto l).filter ehAlnum := by
  obtain ⟨_, _, _, hchars⟩ := normTexto_fixos l
  have hK : ∀ c ∈ (normTexto l).filter ehAlnum,
      (nfkdChar c = [c] ∧ ehCombinante c = false ∧ upperChar c = c) ∧
        ehAlnum c = true := by
    intro c hc
    exact ⟨hchars c (List.mem_of_mem_filter hc), List.of_mem_filter hc⟩
  have hnws : ∀ c ∈ (normTexto l).filter ehAlnum, ehEspaco c = false :=
    fun c hc => ehAlnum_nao_espaco c (hK c hc).2
  have hTK : normTexto ((normTexto l).filter ehAlnum)
      = (normTexto l).filter ehAlnum := by
    show strip (upperStr (colapsar (semCombinantes (nfkdStr _)))) = _
    rw [nfkdStr_fixa _ (fun c hc => ((hK c hc).1).1)]
    rw [semCombinantes_fixa _ (fun c hc => ((hK c hc).1).2.1)]
    rw [colapsar_sem_espacos _ hnws]
    rw [upperStr_fixa _ (fun c hc => ((hK c hc).1).2.2)]
    rw [strip_sem_espacos _ hnws]
  rw [hTK]
  exact List.filter_eq_self.2 (fun c hc => (hK c hc).2)

/-- Unfolding equations for `_normalizar_chave`, stated once so the
idempotence proof rewrites with them instead of re-deriving the
definitional unfolding at each use. -/
theorem chave_eq_vstr (s : String) :
    _normalizar_chave (.vstr s) = ⟨(normTexto s.data).filter ehAlnum⟩ := rfl

theorem chave_eq_vstr_mk (L : List Char) :
    _normalizar_chave (.vstr ⟨L⟩) = ⟨(normTexto L).filter ehAlnum⟩ := rfl

theorem chave_eq_vnum (q : ℚ) (r : String) :
    _normalizar_chave (.vnum q r)
      = ⟨(normTexto (strValor (.vnum q r)).data).filter ehAlnum⟩ := rfl

theorem chave_eq_vinf (neg : Bool) :
    _normalizar_chave (.vinf neg)
      = ⟨(normTexto (strValor (.vinf neg)).data).filter ehAlnum⟩ := rfl

set_option maxHeartbeats 1600000 in
/-- C5: the normalisers never raise (they are total functions of the
modelled Python value), map `None`, NaN-like and empty inputs to the empty
string, are idempotent (display and key form alike), and are case- and
accent-insensitive on the documented example:
`normalize_key "São Paulo-SP" = normalize_key "sao paulo sp"`. -/
theorem normalizadores_contrato :
    (_normalizar_chave .vnone = "" ∧ _normalizar_chave .vnan = "" ∧
      _normalizar_chave (.vstr "") = "") ∧
    (∀ v : Valor,
      _normalizar_texto (.vstr (_normalizar_texto v)) = _normalizar_texto v) ∧
    (∀ v : Valor,
      _normalizar_chave (.vstr (_normalizar_chave v)) = _normalizar_chave v) ∧
    _normalizar_chave (.vstr "São Paulo-SP")
      = _normalizar_chave (.vstr "sao paulo sp") := by
  refine ⟨⟨rfl, rfl, by decide⟩, ?_, ?_, by decide⟩
  · intro v
    rcases v with _ | s | ⟨q, r⟩ | _ | neg
    · decide
    · exact congrArg String.mk (normTexto_idem _)
    · exact congrArg String.mk (normTexto_idem _)
    · decide
    · exact congrArg String.mk (normTexto_idem _)
  · intro v
    rcases v with _ | s | ⟨q, r⟩ | _ | neg
    · decide
    · rw [chave_eq_vstr s, chave_eq_vstr_mk]
      exact congrArg String.mk (normChave_nucleo s.data)
    · rw [chave_eq_vnum q r, chave_eq_vstr_mk]
      exact congrArg String.mk (normChave_nucleo (strValor (.vnum q r)).data)
    · decide
    · rw [chave_eq_vinf neg, chave_eq_vstr_mk]
      exact congrArg String.mk (normChave_nucleo (strValor (.vinf neg)).data)

end Portal
